import Mathlib

/-!
Shallow embedding of `src/recommendation.py` (TF-IDF + cosine-similarity
recommendation engine) and verification of its specification.

Python `dict`s are modelled as association lists with distinct keys
(Python dicts have unique keys; insertion order is irrelevant to every
property proved here, so `List.dedup` is used for key deduplication).
Python floats are modelled as real numbers.  Fallible dictionary key
accesses (`program["id"]` …) are modelled with `Except`, while accesses
through `.get(key, default)` are modelled with a total default lookup,
mirroring the source exactly.
-/

namespace EraRec

/-- A Python `Dict[str, float]` value: association list with distinct keys. -/
abbrev Vec := List (String × ℝ)

/-- The list of keys of a vector (`vec.keys()`). -/
def keys (v : Vec) : List String := v.map Prod.fst

/-- `vec.get(k, d)` — dictionary lookup with a default. -/
noncomputable def getD (v : Vec) (k : String) (d : ℝ) : ℝ :=
  (Option.map Prod.snd (v.find? (fun p => p.1 = k))).getD d

/-- `set(vec1.keys()) & set(vec2.keys())` from `cosine_similarity`. -/
def commonKeys (v1 v2 : Vec) : Finset String :=
  (keys v1).toFinset ∩ (keys v2).toFinset

/-- `sum(vec1[k] * vec2[k] for k in common_keys)`.  The direct indexing
`vec[k]` is only ever evaluated at keys of the intersection, where the
entry exists, so the default of the total lookup is never consulted. -/
noncomputable def dotProduct (v1 v2 : Vec) : ℝ :=
  ∑ k ∈ commonKeys v1 v2, getD v1 k 0 * getD v2 k 0

/-- `sum(v ** 2 for v in vec.values())`. -/
noncomputable def sumSq (v : Vec) : ℝ :=
  (v.map (fun p => p.2 ^ 2)).sum

/-- `math.sqrt(sum(v ** 2 for v in vec.values()))` — Euclidean norm over
the full key set of the vector. -/
noncomputable def vnorm (v : Vec) : ℝ := Real.sqrt (sumSq v)

/-- `cosine_similarity` (src/recommendation.py lines 113–131). -/
noncomputable def cosine_similarity (vec1 vec2 : Vec) : ℝ :=
  if commonKeys vec1 vec2 = ∅ then 0
  else if vnorm vec1 = 0 ∨ vnorm vec2 = 0 then 0
  else dotProduct vec1 vec2 / (vnorm vec1 * vnorm vec2)

/-- `tags_to_vector` (lines 134–138): term-frequency vector
`{tag: count / total}` with `total = len(tags) if tags else 1`. -/
noncomputable def tags_to_vector (tags : List String) : Vec :=
  let total : ℝ := if tags.isEmpty then 1 else (tags.length : ℝ)
  tags.dedup.map (fun t => (t, (tags.count t : ℝ) / total))

/-- A catalog item (a Python dict).  Every field the source ever reads is
modelled as optional, because the source reads some keys fallibly
(`program["id"]`) and others with defaults (`program.get("tags", [])`). -/
structure Program where
  id : Option String
  name : Option String
  details : Option String
  video_url : Option String
  photo_url : Option String
  visible : Option Bool
  tags : Option (List String)
deriving DecidableEq, Repr

/-- Document frequency of a tag: the number of programs whose tag set
contains it (the loop of lines 146–149 counts each program once per
distinct tag, i.e. set semantics). -/
def df (programs : List Program) (tag : String) : Nat :=
  (programs.filter (fun p => tag ∈ p.tags.getD [])).length

/-- The tags occurring in at least one program — the key set of
`tag_doc_count` in `build_idf`. -/
def allTags (programs : List Program) : List String :=
  (programs.map (fun p => (p.tags.getD []).dedup)).flatten.dedup

/-- `build_idf` (lines 141–156): `idf[tag] = log(N / df) + 1`. -/
noncomputable def build_idf (programs : List Program) : Vec :=
  (allTags programs).map
    (fun t => (t, Real.log ((programs.length : ℝ) / (df programs t : ℝ)) + 1))

/-- `apply_tfidf` (lines 159–161): `{tag: tf * idf.get(tag, 1.0)}`. -/
noncomputable def apply_tfidf (tf_vector : Vec) (idf : Vec) : Vec :=
  tf_vector.map (fun p => (p.1, p.2 * getD idf p.1 1))

/-- The answers dict of the user.  The five scalar categories hold strings;
`interests` may hold a single string or a list of strings (the source
checks `isinstance(interests, str)`). -/
structure Answers where
  mood : Option String
  budget : Option String
  company : Option String
  time : Option String
  location : Option String
  interests : Option (String ⊕ List String)
deriving DecidableEq, Repr

/-- `dict.get(k, d)` on a `str → str` synonym table. -/
def mapGetD (m : List (String × String)) (k d : String) : String :=
  (Option.map Prod.snd (m.find? (fun p => p.1 = k))).getD d

def mood_map : List (String × String) :=
  [("active", "активный"), ("relaxed", "расслабленный"),
   ("активный", "активный"), ("расслабленный", "расслабленный")]

def budget_map : List (String × String) :=
  [("low", "низкий_бюджет"), ("medium", "средний_бюджет"),
   ("high", "высокий_бюджет"), ("низкий", "низкий_бюджет"),
   ("средний", "средний_бюджет"), ("высокий", "высокий_бюджет")]

def company_map : List (String × String) :=
  [("alone", "один"), ("couple", "пара"), ("friends", "компания"),
   ("один", "один"), ("пара", "пара"), ("компания", "компания")]

def time_map : List (String × String) :=
  [("morning", "утро"), ("day", "день"), ("evening", "вечер"),
   ("night", "ночь"), ("утро", "утро"), ("день", "день"),
   ("вечер", "вечер"), ("ночь", "ночь")]

def location_map : List (String × String) :=
  [("indoor", "в_помещении"), ("outdoor", "на_улице"),
   ("в_помещении", "в_помещении"), ("на_улице", "на_улице")]

def interest_map : List (String × String) :=
  [("sport", "спорт"), ("creative", "творчество"), ("food", "еда"),
   ("music", "музыка"), ("nature", "природа"), ("extreme", "экстрим"),
   ("romance", "романтика"), ("games", "игры"), ("spa", "спа"),
   ("movies", "кино")]

/-- One scalar category of `build_user_profile`:
`if answers.get(cat): tags.append(cat_map.get(v, v))`.  Python truthiness
on strings makes a present-but-empty value falsy, hence skipped. -/
def scalarTag (m : List (String × String)) (v : Option String) : List String :=
  match v with
  | none => []
  | some s => if s.isEmpty then [] else [mapGetD m s s]

/-- `interests = answers.get("interests", [])`, wrapping a scalar string
into a one-element list (`isinstance(interests, str)` branch). -/
def interestsList (a : Answers) : List String :=
  match a.interests with
  | none => []
  | some (Sum.inl s) => [s]
  | some (Sum.inr l) => l

/-- `build_user_profile` (lines 18–110). -/
def build_user_profile (answers : Answers) : List String :=
  scalarTag mood_map answers.mood ++
  scalarTag budget_map answers.budget ++
  scalarTag company_map answers.company ++
  scalarTag time_map answers.time ++
  scalarTag location_map answers.location ++
  (interestsList answers).map (fun i => mapGetD interest_map i i)

/-- An entry of the list `recommend` returns in the scored path: the dict
literal of lines 209–217. -/
structure ScoredItem where
  id : String
  name : String
  details : String
  video_url : String
  photo_url : String
  visible : Bool
  score : ℝ

/-- An element of the result of `recommend`.  The empty-tags fallback returns
the own dicts of the catalog unchanged (`programs[:top_n]`), while the scored
path builds fresh dicts; the two shapes are distinguished here. -/
inductive RItem where
  | raw (p : Program)
  | scored (s : ScoredItem)

/-- `round(x, 3)`: rounding to three decimal places.  (Python rounds
half-to-even on binary floats; the tie-breaking convention is immaterial
to every property proved here.) -/
noncomputable def round3 (x : ℝ) : ℝ := ((round (x * 1000) : ℤ) : ℝ) / 1000

/-- Fallible dict access `program[key]`, raising `KeyError(key)`. -/
def getKey (v : Option α) (key : String) : Except String α :=
  match v with
  | none => Except.error key
  | some x => Except.ok x

/-- Building one result dict (lines 209–217); the keys are read in the
order they appear in the dict literal, so the first missing one raises
its `KeyError`. -/
noncomputable def projectItem (score : ℝ) (program : Program) :
    Except String ScoredItem :=
  match getKey program.id "id" with
  | Except.error e => Except.error e
  | Except.ok id =>
  match getKey program.name "name" with
  | Except.error e => Except.error e
  | Except.ok name =>
  match getKey program.details "details" with
  | Except.error e => Except.error e
  | Except.ok details =>
  match getKey program.video_url "video_url" with
  | Except.error e => Except.error e
  | Except.ok video_url =>
  match getKey program.photo_url "photo_url" with
  | Except.error e => Except.error e
  | Except.ok photo_url =>
  match getKey program.visible "visible" with
  | Except.error e => Except.error e
  | Except.ok visible =>
    Except.ok ⟨id, name, details, video_url, photo_url, visible, round3 score⟩

/-- The result-building loop of lines 207–217: appends one projected dict
per scored program, stopping at the first `KeyError`. -/
noncomputable def projectAll : List (ℝ × Program) → Except String (List RItem)
  | [] => Except.ok []
  | (score, program) :: rest =>
    match projectItem score program with
    | Except.error e => Except.error e
    | Except.ok item =>
      match projectAll rest with
      | Except.error e => Except.error e
      | Except.ok others => Except.ok (RItem.scored item :: others)

/-- The scoring loop of lines 191–201: skip items whose `visible` flag
(defaulted to `True`) is false, score the rest in catalog order. -/
noncomputable def scoredPrograms (user_tfidf idf : Vec)
    (programs : List Program) : List (ℝ × Program) :=
  (programs.filter (fun p => p.visible.getD true)).map
    (fun p => (cosine_similarity user_tfidf
                 (apply_tfidf (tags_to_vector (p.tags.getD [])) idf), p))

/-- Insertion step of a stable descending sort: the new element goes in
front of the first element whose score is not greater.  This models
`list.sort(key=lambda x: x[0], reverse=True)` — the Python sort is stable,
and `reverse=True` preserves the original order of equal keys. -/
noncomputable def insertDesc (x : ℝ × Program) :
    List (ℝ × Program) → List (ℝ × Program)
  | [] => [x]
  | y :: ys => if x.1 < y.1 then y :: insertDesc x ys else x :: y :: ys

/-- Stable descending-by-score sort (line 204). -/
noncomputable def sortByScoreDesc : List (ℝ × Program) → List (ℝ × Program)
  | [] => []
  | x :: xs => insertDesc x (sortByScoreDesc xs)

/-- The TF-IDF vector of the user as computed by `recommend` (lines 187–188). -/
noncomputable def userTfidf (answers : Answers) (programs : List Program) : Vec :=
  apply_tfidf (tags_to_vector (build_user_profile answers)) (build_idf programs)

/-- `recommend` (lines 164–219).  The catalog is always passed explicitly
(`programs=None` triggers file I/O, outside this model), and `top_n` is a
natural number as in every call site. -/
noncomputable def recommend (user_answers : Answers) (programs : List Program)
    (top_n : Nat) : Except String (List RItem) :=
  let user_tags := build_user_profile user_answers
  if user_tags.isEmpty then
    Except.ok ((programs.take top_n).map RItem.raw)
  else
    let idf := build_idf programs
    let user_vec := apply_tfidf (tags_to_vector user_tags) idf
    let scored := scoredPrograms user_vec idf programs
    projectAll ((sortByScoreDesc scored).take top_n)

/-- The items of a successful result (used to state membership claims). -/
def outItems : Except String (List RItem) → List RItem
  | Except.ok l => l
  | Except.error _ => []

theorem keys_apply_tfidf (tf idf : Vec) : keys (apply_tfidf tf idf) = keys tf := by
  simp [keys, apply_tfidf]

theorem keys_tags_to_vector (tags : List String) :
    keys (tags_to_vector tags) = tags.dedup := by
  simp only [keys, tags_to_vector, List.map_map]
  exact List.map_id _

theorem getD_cases (v : Vec) (k : String) (d : ℝ) :
    getD v k d = d ∨ ∃ p ∈ v, getD v k d = p.2 := by
  unfold getD
  cases h : v.find? (fun p => p.1 = k) with
  | none => exact Or.inl rfl
  | some p => exact Or.inr ⟨p, List.mem_of_find?_eq_some h, rfl⟩

theorem getD_prop {P : ℝ → Prop} {v : Vec} {d : ℝ}
    (hv : ∀ p ∈ v, P p.2) (hd : P d) (k : String) : P (getD v k d) := by
  rcases getD_cases v k d with h | ⟨p, hp, h⟩ <;> rw [h]
  · exact hd
  · exact hv p hp

theorem find?_map_pair (f : String → ℝ) (k : String) :
    ∀ (l : List String), k ∈ l →
      (l.map (fun t => (t, f t))).find? (fun p => p.1 = k) = some (k, f k) := by
  intro l
  induction l with
  | nil => intro h; exact absurd h (List.not_mem_nil k)
  | cons t ts ih =>
    intro h
    by_cases hk : t = k
    · subst hk; simp [List.find?]
    · have hmem : k ∈ ts := by
        rcases List.mem_cons.mp h with h1 | h1
        · exact absurd h1.symm hk
        · exact h1
      simp [List.find?, hk, ih hmem]

theorem getD_build_idf {programs : List Program} {t : String}
    (h : t ∈ allTags programs) (d : ℝ) :
    getD (build_idf programs) t d
      = Real.log ((programs.length : ℝ) / (df programs t : ℝ)) + 1 := by
  unfold getD build_idf
  rw [find?_map_pair _ t _ h]
  rfl

theorem mem_allTags {programs : List Program} {t : String} :
    t ∈ allTags programs ↔ ∃ p ∈ programs, t ∈ p.tags.getD [] := by
  simp [allTags, List.mem_flatten]

theorem df_le_length (programs : List Program) (t : String) :
    df programs t ≤ programs.length :=
  List.length_filter_le _ _

theorem one_le_df {programs : List Program} {t : String}
    (h : t ∈ allTags programs) : 1 ≤ df programs t := by
  rcases mem_allTags.mp h with ⟨p, hp, ht⟩
  have hmem : p ∈ programs.filter (fun p => t ∈ p.tags.getD []) :=
    List.mem_filter.mpr ⟨hp, by simpa using ht⟩
  exact List.length_pos.mpr (List.ne_nil_of_mem hmem)

theorem build_idf_value_ge_one {programs : List Program} :
    ∀ p ∈ build_idf programs, 1 ≤ p.2 := by
  intro p hp
  unfold build_idf at hp
  rcases List.mem_map.mp hp with ⟨t, ht, rfl⟩
  have h1 : 1 ≤ df programs t := one_le_df ht
  have h2 : df programs t ≤ programs.length := df_le_length programs t
  have hdfpos : (0 : ℝ) < (df programs t : ℝ) := by exact_mod_cast h1
  have hdiv : (1 : ℝ) ≤ (programs.length : ℝ) / (df programs t : ℝ) := by
    rw [le_div_iff₀ hdfpos, one_mul]
    exact_mod_cast h2
  have := Real.log_nonneg hdiv
  dsimp only
  linarith

theorem tags_to_vector_value_nonneg (tags : List String) :
    ∀ p ∈ tags_to_vector tags, 0 ≤ p.2 := by
  intro p hp
  unfold tags_to_vector at hp
  rcases List.mem_map.mp hp with ⟨t, _, rfl⟩
  dsimp only
  apply div_nonneg (Nat.cast_nonneg _)
  split
  · norm_num
  · exact Nat.cast_nonneg _

theorem apply_tfidf_value_nonneg {tf idf : Vec} (htf : ∀ p ∈ tf, 0 ≤ p.2)
    (hidf : ∀ p ∈ idf, 0 ≤ p.2) : ∀ p ∈ apply_tfidf tf idf, 0 ≤ p.2 := by
  intro p hp
  unfold apply_tfidf at hp
  rcases List.mem_map.mp hp with ⟨q, hq, rfl⟩
  exact mul_nonneg (htf q hq) (getD_prop hidf zero_le_one q.1)

theorem userTfidf_value_nonneg (answers : Answers) (programs : List Program) :
    ∀ p ∈ userTfidf answers programs, 0 ≤ p.2 :=
  apply_tfidf_value_nonneg (tags_to_vector_value_nonneg _)
    (fun p hp => le_trans zero_le_one (build_idf_value_ge_one p hp))

theorem getD_cons_self (p : String × ℝ) (rest : Vec) (d : ℝ) :
    getD (p :: rest) p.1 d = p.2 := by
  simp [getD, List.find?]

theorem getD_cons_ne (p : String × ℝ) (rest : Vec) {k : String}
    (hk : k ≠ p.1) (d : ℝ) : getD (p :: rest) k d = getD rest k d := by
  simp [getD, List.find?, Ne.symm hk]

/-- Summing a function of the looked-up values over the key set equals
summing it over the entries, provided the keys are distinct (as they are
for any vector that models a Python dict). -/
theorem sum_over_keys (f : ℝ → ℝ) :
    ∀ (v : Vec), (keys v).Nodup →
      ∑ k ∈ (keys v).toFinset, f (getD v k 0) = (v.map (fun p => f p.2)).sum := by
  intro v
  induction v with
  | nil => intro _; simp [keys]
  | cons p rest ih =>
    intro hnd
    have hnd' : (keys rest).Nodup := (List.nodup_cons.mp hnd).2
    have hp : p.1 ∉ keys rest := (List.nodup_cons.mp hnd).1
    have hins : (keys (p :: rest)).toFinset
        = insert p.1 (keys rest).toFinset := by
      simp [keys]
    rw [hins, Finset.sum_insert (by simpa using hp)]
    have hrest : ∑ k ∈ (keys rest).toFinset, f (getD (p :: rest) k 0)
        = ∑ k ∈ (keys rest).toFinset, f (getD rest k 0) := by
      refine Finset.sum_congr rfl (fun k hk => ?_)
      have hkne : k ≠ p.1 := by
        intro h
        exact hp (h ▸ List.mem_toFinset.mp hk)
      rw [getD_cons_ne p rest hkne]
    rw [hrest, ih hnd', getD_cons_self]
    simp

theorem sumSq_nonneg (v : Vec) : 0 ≤ sumSq v := by
  apply List.sum_nonneg
  intro x hx
  rcases List.mem_map.mp hx with ⟨p, _, rfl⟩
  exact sq_nonneg _

theorem vnorm_nonneg (v : Vec) : 0 ≤ vnorm v := Real.sqrt_nonneg _

theorem dotProduct_nonneg {v1 v2 : Vec} (h1 : ∀ p ∈ v1, 0 ≤ p.2)
    (h2 : ∀ p ∈ v2, 0 ≤ p.2) : 0 ≤ dotProduct v1 v2 :=
  Finset.sum_nonneg fun k _ =>
    mul_nonneg (getD_prop h1 le_rfl k) (getD_prop h2 le_rfl k)

/-- Cauchy–Schwarz for the dot product of the source: the dot product over the
key intersection is at most the product of the two full-key-set norms. -/
theorem dotProduct_le_vnorm_mul_vnorm {v1 v2 : Vec}
    (h1 : (keys v1).Nodup) (h2 : (keys v2).Nodup) :
    dotProduct v1 v2 ≤ vnorm v1 * vnorm v2 := by
  have cs := Real.sum_mul_le_sqrt_mul_sqrt (commonKeys v1 v2)
    (fun k => getD v1 k 0) (fun k => getD v2 k 0)
  have hsub1 : ∑ k ∈ commonKeys v1 v2, (getD v1 k 0) ^ 2 ≤ sumSq v1 := by
    unfold sumSq
    rw [← sum_over_keys (fun x => x ^ 2) v1 h1]
    exact Finset.sum_le_sum_of_subset_of_nonneg Finset.inter_subset_left
      (fun k _ _ => sq_nonneg _)
  have hsub2 : ∑ k ∈ commonKeys v1 v2, (getD v2 k 0) ^ 2 ≤ sumSq v2 := by
    unfold sumSq
    rw [← sum_over_keys (fun x => x ^ 2) v2 h2]
    exact Finset.sum_le_sum_of_subset_of_nonneg Finset.inter_subset_right
      (fun k _ _ => sq_nonneg _)
  refine le_trans cs ?_
  exact mul_le_mul (Real.sqrt_le_sqrt hsub1) (Real.sqrt_le_sqrt hsub2)
    (Real.sqrt_nonneg _) (Real.sqrt_nonneg _)

/-- The cosine similarity of two dict-shaped vectors with non-negative
values lies in `[0, 1]`. -/
theorem cosine_similarity_mem_unit {v1 v2 : Vec}
    (h1n : (keys v1).Nodup) (h2n : (keys v2).Nodup)
    (h1 : ∀ p ∈ v1, 0 ≤ p.2) (h2 : ∀ p ∈ v2, 0 ≤ p.2) :
    0 ≤ cosine_similarity v1 v2 ∧ cosine_similarity v1 v2 ≤ 1 := by
  unfold cosine_similarity
  split
  · exact ⟨le_rfl, zero_le_one⟩
  split
  · exact ⟨le_rfl, zero_le_one⟩
  next hcom hnz =>
    push_neg at hnz
    have hv1 : 0 < vnorm v1 := lt_of_le_of_ne (vnorm_nonneg v1) (Ne.symm hnz.1)
    have hv2 : 0 < vnorm v2 := lt_of_le_of_ne (vnorm_nonneg v2) (Ne.symm hnz.2)
    constructor
    · exact div_nonneg (dotProduct_nonneg h1 h2) (mul_nonneg hv1.le hv2.le)
    · rw [div_le_one (mul_pos hv1 hv2)]
      exact dotProduct_le_vnorm_mul_vnorm h1n h2n

/-- The cosine similarity of a nonzero vector with itself is exactly 1. -/
theorem cosine_similarity_self {v : Vec} (hn : (keys v).Nodup)
    (hpos : 0 < sumSq v) : cosine_similarity v v = 1 := by
  have hvne : v ≠ [] := by
    intro h
    rw [h] at hpos
    simp [sumSq] at hpos
  have hdot : dotProduct v v = sumSq v := by
    unfold dotProduct commonKeys sumSq
    rw [Finset.inter_self, ← sum_over_keys (fun x => x ^ 2) v hn]
    exact Finset.sum_congr rfl (fun k _ => (sq (getD v k 0)).symm)
  have hkne : commonKeys v v ≠ ∅ := by
    rcases List.exists_mem_of_ne_nil v hvne with ⟨p, hp⟩
    have : p.1 ∈ commonKeys v v := by
      simp [commonKeys, keys, List.mem_toFinset]
      exact ⟨p.2, hp⟩
    intro h
    rw [h] at this
    exact absurd this (Finset.not_mem_empty _)
  have hvpos : 0 < vnorm v := Real.sqrt_pos.mpr hpos
  unfold cosine_similarity
  rw [if_neg hkne, if_neg (by push_neg; exact ⟨hvpos.ne', hvpos.ne'⟩)]
  rw [hdot]
  unfold vnorm
  rw [Real.mul_self_sqrt hpos.le]
  exact div_self hpos.ne'

theorem mem_insertDesc {x a : ℝ × Program} :
    ∀ {l : List (ℝ × Program)}, a ∈ insertDesc x l ↔ a = x ∨ a ∈ l := by
  intro l
  induction l with
  | nil => simp [insertDesc]
  | cons y ys ih =>
    unfold insertDesc
    split
    · rw [List.mem_cons, ih, List.mem_cons]
      tauto
    · exact List.mem_cons

theorem mem_sortByScoreDesc {a : ℝ × Program} :
    ∀ {l : List (ℝ × Program)}, a ∈ sortByScoreDesc l ↔ a ∈ l := by
  intro l
  induction l with
  | nil => simp [sortByScoreDesc]
  | cons x xs ih =>
    unfold sortByScoreDesc
    rw [mem_insertDesc, ih]
    simp

/-- Inserting an element never disturbs the entries of any fixed score
class: the elements it is placed behind all have a strictly greater
score. -/
theorem filter_insertDesc (x : ℝ × Program) (s : ℝ) :
    ∀ (l : List (ℝ × Program)),
      (insertDesc x l).filter (fun y => y.1 = s)
        = if x.1 = s then x :: l.filter (fun y => y.1 = s)
          else l.filter (fun y => y.1 = s) := by
  intro l
  induction l with
  | nil =>
    unfold insertDesc
    split <;> simp_all [List.filter]
  | cons y ys ih =>
    unfold insertDesc
    by_cases hlt : x.1 < y.1
    · rw [if_pos hlt]
      by_cases hxs : x.1 = s
      · have hys : ¬ (y.1 = s) := by
          intro h
          rw [hxs] at hlt
          exact absurd h (ne_of_gt hlt)
        rw [if_pos hxs]
        simp only [List.filter_cons, ih, if_pos hxs, decide_eq_true_eq]
        rw [if_neg (by simpa using hys)]
        simp [hys]
      · rw [if_neg hxs]
        simp only [List.filter_cons, ih, if_neg hxs]
    · rw [if_neg hlt]
      by_cases hxs : x.1 = s
      · rw [if_pos hxs]
        simp [List.filter_cons, hxs]
      · rw [if_neg hxs]
        simp [List.filter_cons, hxs]

/-- The descending sort is stable: it permutes score classes as blocks,
never reordering within a class. -/
theorem filter_sortByScoreDesc (s : ℝ) :
    ∀ (l : List (ℝ × Program)),
      (sortByScoreDesc l).filter (fun y => y.1 = s)
        = l.filter (fun y => y.1 = s) := by
  intro l
  induction l with
  | nil => rfl
  | cons x xs ih =>
    unfold sortByScoreDesc
    rw [filter_insertDesc, List.filter_cons]
    by_cases hxs : x.1 = s
    · rw [if_pos hxs, ih]
      simp [hxs]
    · rw [if_neg hxs, ih]
      simp [hxs]

theorem projectItem_ok {score : ℝ} {p : Program} {item : ScoredItem}
    (h : projectItem score p = Except.ok item) :
    p.visible = some item.visible ∧ item.score = round3 score := by
  rcases p with ⟨id, name, details, vu, pu, vis, tags⟩
  cases id <;> cases name <;> cases details <;> cases vu <;> cases pu <;>
    cases vis <;> simp_all [projectItem, getKey]
  rw [← h]
  exact ⟨rfl, rfl⟩

theorem projectAll_ok_mem :
    ∀ {l : List (ℝ × Program)} {out : List RItem} {r : RItem},
      projectAll l = Except.ok out → r ∈ out →
      ∃ sp ∈ l, ∃ item, projectItem sp.1 sp.2 = Except.ok item ∧
        r = RItem.scored item := by
  intro l
  induction l with
  | nil =>
    intro out r h hr
    unfold projectAll at h
    cases h
    exact absurd hr (List.not_mem_nil r)
  | cons sp rest ih =>
    intro out r h hr
    rcases sp with ⟨score, program⟩
    unfold projectAll at h
    cases hitem : projectItem score program with
    | error e => rw [hitem] at h; simp at h
    | ok item =>
      rw [hitem] at h
      cases hrest : projectAll rest with
      | error e =>
        rw [hrest] at h
        simp at h
      | ok others =>
        rw [hrest] at h
        simp only [Except.ok.injEq] at h
        subst h
        rcases List.mem_cons.mp hr with h1 | h1
        · exact ⟨(score, program), List.mem_cons_self _ _, item, hitem, h1⟩
        · rcases ih hrest h1 with ⟨sp, hsp, item2, hi2, hr2⟩
          exact ⟨sp, List.mem_cons_of_mem _ hsp, item2, hi2, hr2⟩

theorem round3_nonneg {x : ℝ} (h : 0 ≤ x) : 0 ≤ round3 x := by
  unfold round3
  apply div_nonneg _ (by norm_num)
  have : (0 : ℤ) ≤ round (x * 1000) := by
    rw [round_eq]
    apply Int.floor_nonneg.mpr
    nlinarith
  exact_mod_cast this

theorem round3_le_one {x : ℝ} (h : x ≤ 1) : round3 x ≤ 1 := by
  unfold round3
  rw [div_le_one (by norm_num)]
  have : round (x * 1000) ≤ round (1 * 1000 : ℝ) := by
    rw [round_eq, round_eq]
    apply Int.floor_le_floor
    nlinarith
  have h2 : round (1 * 1000 : ℝ) = 1000 := by
    norm_num
  rw [h2] at this
  exact_mod_cast this

def emptyAnswers : Answers := ⟨none, none, none, none, none, none⟩

/-- Answers whose derived tag list is `["active", "sport"]`: neither value
has an entry in the synonym table of its category, so both pass through. -/
def ansAS : Answers := ⟨none, some "active", some "sport", none, none, none⟩

/-- If the derived tag list is non-empty, `recommend` takes the scored
path. -/
theorem recommend_scored_eq (answers : Answers) (programs : List Program)
    (top_n : Nat) (h : (build_user_profile answers).isEmpty = false) :
    recommend answers programs top_n
      = projectAll ((sortByScoreDesc (scoredPrograms (userTfidf answers programs)
          (build_idf programs) programs)).take top_n) := by
  simp [recommend, userTfidf, h]

/-- Every item of a scored-path result is a freshly built dict whose
`visible` field is `true`: the loop filters on the defaulted flag and the
projection then reads the key that the filter proved present and true. -/
theorem scoredPath_visible {uv idf : Vec} {programs : List Program}
    {top_n : Nat} {r : RItem}
    (hr : r ∈ outItems (projectAll
      ((sortByScoreDesc (scoredPrograms uv idf programs)).take top_n))) :
    ∃ item, r = RItem.scored item ∧ item.visible = true := by
  cases hres : projectAll
      ((sortByScoreDesc (scoredPrograms uv idf programs)).take top_n) with
  | error e =>
    rw [hres] at hr
    exact absurd hr (List.not_mem_nil r)
  | ok out =>
    rw [hres] at hr
    replace hr : r ∈ out := hr
    rcases projectAll_ok_mem hres hr with ⟨sp, hsp, item, hio, rfl⟩
    refine ⟨item, rfl, ?_⟩
    have hsp3 : sp ∈ scoredPrograms uv idf programs :=
      mem_sortByScoreDesc.mp (List.mem_of_mem_take hsp)
    unfold scoredPrograms at hsp3
    rcases List.mem_map.mp hsp3 with ⟨p, hpf, rfl⟩
    have hvis : p.visible.getD true = true := by
      simpa using (List.mem_filter.mp hpf).2
    have hread := (projectItem_ok hio).1
    rw [hread] at hvis
    simpa using hvis

/-- An invisible catalog item with every key present. -/
def pGhost : Program :=
  ⟨some "13", some "ghost", some "d", some "v", some "ph", some false, some ["g"]⟩

/-- A second invisible item, and a visible one, for the fallback path. -/
def pHidden : Program :=
  ⟨some "7", some "hidden", some "d", some "v", some "ph", some false, some ["a"]⟩

def pShown : Program :=
  ⟨some "8", some "shown", some "d", some "v", some "ph", some true, some ["a"]⟩

/-- A `ScoredItem` marked invisible (no such item is ever produced). -/
noncomputable def sGhost : ScoredItem := ⟨"13", "ghost", "d", "v", "ph", false, 0⟩

/-- Claim C1 counterexample: with the empty answers mapping the fallback path of
`recommend` returns an item whose `visible` flag is `false` — the claim
that no invisible item ever appears in the output fails on the fallback
path, which returns `programs[:top_n]` without any visibility filter. -/
theorem claim1_counterexample :
    RItem.raw pGhost ∈ outItems (recommend emptyAnswers [pGhost] 3) ∧
    pGhost.visible = some false := by
  have h : outItems (recommend emptyAnswers [pGhost] 3) = [RItem.raw pGhost] := rfl
  rw [h]
  exact ⟨List.mem_singleton.mpr rfl, rfl⟩

/-- Claim C1 (amended): in the scored path (non-empty derived tag list) no item
with `visible = false` ever appears in the output of `recommend`: every output
element is a freshly built dict with `visible = true`.  The
empty-tag fallback path, by contrast, performs no visibility filtering. -/
theorem claim1_visibility (answers : Answers) (programs : List Program)
    (top_n : Nat) (h : build_user_profile answers ≠ []) :
    (∀ p : Program, RItem.raw p ∉ outItems (recommend answers programs top_n)) ∧
    (∀ s : ScoredItem, s.visible = false →
      RItem.scored s ∉ outItems (recommend answers programs top_n)) := by
  have hne : (build_user_profile answers).isEmpty = false := by
    cases hb : build_user_profile answers with
    | nil => exact absurd hb h
    | cons a l => rfl
  rw [recommend_scored_eq answers programs top_n hne]
  constructor
  · intro p hp
    rcases scoredPath_visible hp with ⟨item, hitem, _⟩
    exact RItem.noConfusion hitem
  · intro s hs hmem
    rcases scoredPath_visible hmem with ⟨item, hitem, hvis⟩
    cases hitem
    rw [hs] at hvis
    exact Bool.false_ne_true hvis

/-- Claim C1 witness: concrete answers with a non-empty tag list, at which the
amended theorem applies. -/
theorem claim1_witness :
    build_user_profile ansAS ≠ [] ∧
    RItem.scored sGhost ∉ outItems (recommend ansAS [pGhost] 3) := by
  have hb : build_user_profile ansAS ≠ [] := by decide
  exact ⟨hb, (claim1_visibility ansAS [pGhost] 3 hb).2 sGhost rfl⟩

/-- Claim C2 counterexample: on the fallback path the claim predicts the first
`topN` *visible* items, but the code returns `programs[:top_n]` verbatim:
for `[pHidden, pShown]` and `topN = 1` it returns the invisible `pHidden`
and omits the visible `pShown`. -/
theorem claim2_counterexample :
    recommend emptyAnswers [pHidden, pShown] 1 = Except.ok [RItem.raw pHidden] ∧
    pHidden.visible = some false ∧ pShown.visible = some true :=
  ⟨rfl, rfl, rfl⟩

/-- Claim C2 (amended): if the answers produce an empty tag list, `recommend`
bypasses scoring and returns the first `topN` items of the catalog in
catalog order — regardless of their `visible` flag — unchanged and
without score-based reordering. -/
theorem claim2_fallback (answers : Answers) (programs : List Program)
    (top_n : Nat) (h : build_user_profile answers = []) :
    recommend answers programs top_n
      = Except.ok ((programs.take top_n).map RItem.raw) := by
  simp [recommend, h]

/-- Claim C2 witness: the empty answers mapping derives no tags, and the
fallback returns the catalog head unchanged. -/
theorem claim2_witness :
    build_user_profile emptyAnswers = [] ∧
    recommend emptyAnswers [pShown, pHidden] 1 = Except.ok [RItem.raw pShown] :=
  ⟨rfl, claim2_fallback emptyAnswers [pShown, pHidden] 1 rfl⟩

/-- Claim C3: the descending sort used by `recommend` on the scored visible
items is stable — for every score value, the items carrying that exact
cosine score appear after sorting in exactly their original catalog
order (`scoredPrograms` enumerates the visible items in catalog order). -/
theorem claim3_stable_sort (answers : Answers) (programs : List Program) (s : ℝ) :
    (sortByScoreDesc (scoredPrograms (userTfidf answers programs)
        (build_idf programs) programs)).filter (fun x => x.1 = s)
      = (scoredPrograms (userTfidf answers programs)
        (build_idf programs) programs).filter (fun x => x.1 = s) :=
  filter_sortByScoreDesc s _

/-- Two vectors with disjoint key sets, for the C5 witness. -/
noncomputable def vDisjA : Vec := [("a", 1)]

noncomputable def vDisjB : Vec := [("b", 1)]

/-- Claim C5: `cosine_similarity` is total: an empty key intersection gives
exactly 0, a zero norm (over the full key set) gives exactly 0, and
otherwise the result is the dot product over the key intersection divided
by the product of the two full-key-set norms — never a division fault. -/
theorem claim5_cosine_total (vec1 vec2 : Vec) :
    (commonKeys vec1 vec2 = ∅ → cosine_similarity vec1 vec2 = 0) ∧
    (vnorm vec1 = 0 ∨ vnorm vec2 = 0 → cosine_similarity vec1 vec2 = 0) ∧
    (commonKeys vec1 vec2 ≠ ∅ → vnorm vec1 ≠ 0 → vnorm vec2 ≠ 0 →
      cosine_similarity vec1 vec2
        = dotProduct vec1 vec2 / (vnorm vec1 * vnorm vec2)) := by
  unfold cosine_similarity
  refine ⟨fun h => by rw [if_pos h], fun h => ?_, fun h1 h2 h3 => ?_⟩
  · by_cases hc : commonKeys vec1 vec2 = ∅
    · rw [if_pos hc]
    · rw [if_neg hc, if_pos h]
  · rw [if_neg h1, if_neg (by push_neg; exact ⟨h2, h3⟩)]

/-- Claim C5 witness: two concrete vectors with disjoint key sets get
similarity exactly 0. -/
theorem claim5_witness :
    commonKeys vDisjA vDisjB = ∅ ∧ cosine_similarity vDisjA vDisjB = 0 := by
  have h : commonKeys vDisjA vDisjB = ∅ := by decide
  exact ⟨h, (claim5_cosine_total vDisjA vDisjB).1 h⟩

/-- Claim C6: `build_idf` assigns every tag occurring in at least one item the
weight `ln(N / df) + 1`; the weight is strictly positive (even for a
ubiquitous tag with `df = N`), and strictly decreasing in document
frequency. -/
theorem claim6_idf (programs : List Program) (t1 t2 : String)
    (h1 : t1 ∈ allTags programs) (h2 : t2 ∈ allTags programs) :
    getD (build_idf programs) t1 0
        = Real.log ((programs.length : ℝ) / (df programs t1 : ℝ)) + 1 ∧
    0 < getD (build_idf programs) t1 0 ∧
    (df programs t1 < df programs t2 →
      getD (build_idf programs) t2 0 < getD (build_idf programs) t1 0) := by
  have e1 := getD_build_idf h1 (0 : ℝ)
  have e2 := getD_build_idf h2 (0 : ℝ)
  have hd1 : 1 ≤ df programs t1 := one_le_df h1
  have hd2 : 1 ≤ df programs t2 := one_le_df h2
  have hl1 : df programs t1 ≤ programs.length := df_le_length programs t1
  refine ⟨e1, ?_, ?_⟩
  · rw [e1]
    have hdiv : (1 : ℝ) ≤ (programs.length : ℝ) / (df programs t1 : ℝ) := by
      rw [le_div_iff₀ (by exact_mod_cast hd1), one_mul]
      exact_mod_cast hl1
    have := Real.log_nonneg hdiv
    linarith
  · intro hlt
    rw [e1, e2]
    have hN : (0 : ℝ) < (programs.length : ℝ) := by
      have : 1 ≤ programs.length := le_trans hd1 hl1
      exact_mod_cast this
    have hdf1 : (0 : ℝ) < (df programs t1 : ℝ) := by exact_mod_cast hd1
    have hdf2 : (0 : ℝ) < (df programs t2 : ℝ) := by exact_mod_cast hd2
    have hltR : (df programs t1 : ℝ) < (df programs t2 : ℝ) := by exact_mod_cast hlt
    have hdiv : (programs.length : ℝ) / (df programs t2 : ℝ)
        < (programs.length : ℝ) / (df programs t1 : ℝ) :=
      div_lt_div_of_pos_left hN hdf1 hltR
    have := Real.log_lt_log (div_pos hN hdf2) hdiv
    linarith

/-- A two-item catalog giving the tag "rare" document frequency 1 and the
tag "common" document frequency 2 (C6 witness data). -/
def pRare : Program :=
  ⟨some "r", some "r", some "r", some "r", some "r", some true, some ["common", "rare"]⟩

def pCommon : Program :=
  ⟨some "c", some "c", some "c", some "c", some "c", some true, some ["common"]⟩

/-- Claim C6 witness: on a concrete catalog, the rarer tag strictly outweighs
the more frequent one. -/
theorem claim6_witness :
    "rare" ∈ allTags [pRare, pCommon] ∧ "common" ∈ allTags [pRare, pCommon] ∧
    df [pRare, pCommon] "rare" < df [pRare, pCommon] "common" ∧
    getD (build_idf [pRare, pCommon]) "common" 0
      < getD (build_idf [pRare, pCommon]) "rare" 0 := by
  refine ⟨by decide, by decide, by decide, ?_⟩
  exact (claim6_idf [pRare, pCommon] "rare" "common" (by decide) (by decide)).2.2
    (by decide)

theorem list_sum_map_div (l : List String) (f : String → ℝ) (c : ℝ) :
    (l.map (fun x => f x / c)).sum = (l.map f).sum / c := by
  induction l with
  | nil => simp
  | cons a t ih => simp [ih, add_div]

/-- Claim C7: `tags_to_vector` maps each distinct tag to its occurrence count
divided by the sequence length, so the values of any vector built from a
non-empty tag list sum to exactly 1; the empty list yields the empty
mapping, not an error. -/
theorem claim7_tf (tags : List String) :
    (tags ≠ [] → ((tags_to_vector tags).map Prod.snd).sum = 1) ∧
    tags_to_vector [] = [] := by
  constructor
  · intro h
    cases htags : tags with
    | nil => exact absurd htags h
    | cons a t =>
      subst htags
      simp only [tags_to_vector, List.isEmpty_cons, Bool.false_eq_true, if_false,
        List.map_map]
      have hcomp : (Prod.snd ∘ fun tg => (tg, ((a :: t).count tg : ℝ) / ((a :: t).length : ℝ)))
          = fun tg => ((a :: t).count tg : ℝ) / ((a :: t).length : ℝ) := rfl
      rw [hcomp, list_sum_map_div]
      have hcast : ((a :: t).dedup.map (fun tg => ((a :: t).count tg : ℝ))).sum
          = (((a :: t).dedup.map (fun tg => (a :: t).count tg)).sum : ℝ) := by
        rw [Nat.cast_list_sum, List.map_map]
        rfl
      rw [hcast, List.sum_map_count_dedup_eq_length]
      have hpos : 0 < (a :: t).length := List.length_pos.mpr (List.cons_ne_nil a t)
      exact div_self (by exact_mod_cast hpos.ne' : ((a :: t).length : ℝ) ≠ 0)
  · rfl

/-- Claim C7 witness: a concrete non-empty tag list with a repeat; the term
frequencies 2/3 and 1/3 sum to 1. -/
theorem claim7_witness :
    (["a", "b", "a"] : List String) ≠ [] ∧
    ((tags_to_vector ["a", "b", "a"]).map Prod.snd).sum = 1 :=
  ⟨by decide, (claim7_tf ["a", "b", "a"]).1 (by decide)⟩

theorem mapGetD_of_not_mem {m : List (String × String)} {k : String}
    (h : k ∉ m.map Prod.fst) (d : String) : mapGetD m k d = d := by
  unfold mapGetD
  rw [List.find?_eq_none.mpr ?_]
  · rfl
  · intro p hp
    simp only [decide_eq_true_eq]
    intro hk
    exact h (hk ▸ List.mem_map_of_mem Prod.fst hp)

theorem scalarTag_unknown {m : List (String × String)} {s : String}
    (hne : s.isEmpty = false) (hun : s ∉ m.map Prod.fst) :
    scalarTag m (some s) = [s] := by
  simp [scalarTag, hne, mapGetD_of_not_mem hun]

/-- A scalar answer category whose value, when present, is non-empty and
has no entry in the synonym table of the category. -/
def unknownScalar (m : List (String × String)) (v : Option String) : Prop :=
  ∀ s, v = some s → s.isEmpty = false ∧ s ∉ m.map Prod.fst

theorem scalarTag_of_unknownScalar {m : List (String × String)}
    {v : Option String} (h : unknownScalar m v) : scalarTag m v = v.toList := by
  cases hv : v with
  | none => rfl
  | some s =>
    rcases h s hv with ⟨hne, hun⟩
    rw [scalarTag_unknown hne hun]
    rfl

/-- Claim C8 counterexample: `{mood: ""}` is a present answer whose raw value
has no entry in the mood synonym table, yet the empty string does not
appear in the output — the source guards each scalar category with Python
truthiness (`if answers.get("mood"):`), which an empty string fails. -/
theorem claim8_counterexample :
    (Answers.mood ⟨some "", none, none, none, none, none⟩ = some "") ∧
    "" ∉ mood_map.map Prod.fst ∧
    build_user_profile ⟨some "", none, none, none, none, none⟩ = [] ∧
    "" ∉ build_user_profile ⟨some "", none, none, none, none, none⟩ := by
  exact ⟨rfl, by decide, rfl, by decide⟩

/-- Claim C8 (amended): `build_user_profile` never errors on an unknown value.
For each of the five scalar categories that is present *with a non-empty
value*, a value with no entry in its synonym table appears verbatim in
the output (a present empty-string value is skipped by the truthiness
guard); likewise every unknown interest value appears verbatim.  When all
present values are unknown, the output is exactly the present scalar
values in the order mood, budget, company, time, location, followed by
the interests in input order, duplicates preserved. -/
theorem claim8_passthrough (a : Answers) :
    (∀ s, a.mood = some s → s.isEmpty = false → s ∉ mood_map.map Prod.fst →
      s ∈ build_user_profile a) ∧
    (∀ s, a.budget = some s → s.isEmpty = false → s ∉ budget_map.map Prod.fst →
      s ∈ build_user_profile a) ∧
    (∀ s, a.company = some s → s.isEmpty = false → s ∉ company_map.map Prod.fst →
      s ∈ build_user_profile a) ∧
    (∀ s, a.time = some s → s.isEmpty = false → s ∉ time_map.map Prod.fst →
      s ∈ build_user_profile a) ∧
    (∀ s, a.location = some s → s.isEmpty = false → s ∉ location_map.map Prod.fst →
      s ∈ build_user_profile a) ∧
    (∀ t, t ∈ interestsList a → t ∉ interest_map.map Prod.fst →
      t ∈ build_user_profile a) ∧
    (unknownScalar mood_map a.mood → unknownScalar budget_map a.budget →
     unknownScalar company_map a.company → unknownScalar time_map a.time →
     unknownScalar location_map a.location →
     (∀ t ∈ interestsList a, t ∉ interest_map.map Prod.fst) →
     build_user_profile a
       = a.mood.toList ++ a.budget.toList ++ a.company.toList ++ a.time.toList
         ++ a.location.toList ++ interestsList a) := by
  refine ⟨?_, ?_, ?_, ?_, ?_, ?_, ?_⟩
  · intro s hv hne hun
    unfold build_user_profile
    rw [hv, scalarTag_unknown hne hun]
    simp
  · intro s hv hne hun
    unfold build_user_profile
    rw [hv, scalarTag_unknown hne hun]
    simp
  · intro s hv hne hun
    unfold build_user_profile
    rw [hv, scalarTag_unknown hne hun]
    simp
  · intro s hv hne hun
    unfold build_user_profile
    rw [hv, scalarTag_unknown hne hun]
    simp
  · intro s hv hne hun
    unfold build_user_profile
    rw [hv, scalarTag_unknown hne hun]
    simp
  · intro t ht hun
    unfold build_user_profile
    have : t ∈ (interestsList a).map (fun i => mapGetD interest_map i i) :=
      List.mem_map.mpr ⟨t, ht, mapGetD_of_not_mem hun t⟩
    simp only [List.mem_append]
    tauto
  · intro hm hb hc ht hl hi
    unfold build_user_profile
    rw [scalarTag_of_unknownScalar hm, scalarTag_of_unknownScalar hb,
      scalarTag_of_unknownScalar hc, scalarTag_of_unknownScalar ht,
      scalarTag_of_unknownScalar hl]
    congr 5
    calc (interestsList a).map (fun i => mapGetD interest_map i i)
        = (interestsList a).map (fun i => i) :=
          List.map_congr_left (fun t htm => mapGetD_of_not_mem (hi t htm) t)
      _ = interestsList a := List.map_id _

/-- Answers whose present values are all unknown to the synonym tables
(C8 witness data), with a duplicated interest. -/
def ansUnknown : Answers :=
  ⟨some "moody", some "cheap", none, none, none, some (Sum.inr ["x", "x"])⟩

/-- Claim C8 witness: on concrete all-unknown answers the output is the raw
values in category order with the duplicate interest preserved. -/
theorem claim8_witness :
    build_user_profile ansUnknown = ["moody", "cheap", "x", "x"] := by
  have h := (claim8_passthrough ansUnknown).2.2.2.2.2.2
    (by intro s hs; cases hs; exact ⟨rfl, by decide⟩)
    (by intro s hs; cases hs; exact ⟨rfl, by decide⟩)
    (by intro s hs; cases hs)
    (by intro s hs; cases hs)
    (by intro s hs; cases hs)
    (by
      intro t htm
      have ht : t = "x" := by simpa [ansUnknown, interestsList] using htm
      subst ht
      decide)
  simpa [ansUnknown, interestsList] using h

theorem userTfidf_keys_nodup (answers : Answers) (programs : List Program) :
    (keys (userTfidf answers programs)).Nodup := by
  unfold userTfidf
  rw [keys_apply_tfidf, keys_tags_to_vector]
  exact List.nodup_dedup _

/-- Every raw score produced by the scoring loop lies in `[0, 1]`: the
TF-IDF vectors on both sides have distinct keys and non-negative values,
so the cosine similarity is bounded by Cauchy–Schwarz. -/
theorem scoredPrograms_score_bounds (answers : Answers) (programs : List Program) :
    ∀ x ∈ scoredPrograms (userTfidf answers programs) (build_idf programs) programs,
      0 ≤ x.1 ∧ x.1 ≤ 1 := by
  intro x hx
  unfold scoredPrograms at hx
  rcases List.mem_map.mp hx with ⟨p, hpf, rfl⟩
  refine cosine_similarity_mem_unit (userTfidf_keys_nodup answers programs) ?_
    (userTfidf_value_nonneg answers programs) ?_
  · rw [keys_apply_tfidf, keys_tags_to_vector]
    exact List.nodup_dedup _
  · exact apply_tfidf_value_nonneg (tags_to_vector_value_nonneg _)
      (fun q hq => le_trans zero_le_one (build_idf_value_ge_one q hq))

/-- Every item of a scored-path result carries the rounded score of some
entry of the list built by the scoring loop. -/
theorem scoredPath_score {uv idf : Vec} {programs : List Program}
    {top_n : Nat} {r : RItem}
    (hr : r ∈ outItems (projectAll
      ((sortByScoreDesc (scoredPrograms uv idf programs)).take top_n))) :
    ∃ sp ∈ scoredPrograms uv idf programs,
      ∃ item, r = RItem.scored item ∧ item.score = round3 sp.1 := by
  cases hres : projectAll
      ((sortByScoreDesc (scoredPrograms uv idf programs)).take top_n) with
  | error e =>
    rw [hres] at hr
    exact absurd hr (List.not_mem_nil r)
  | ok out =>
    rw [hres] at hr
    replace hr : r ∈ out := hr
    rcases projectAll_ok_mem hres hr with ⟨sp, hsp, item, hio, rfl⟩
    exact ⟨sp, mem_sortByScoreDesc.mp (List.mem_of_mem_take hsp), item, rfl,
      (projectItem_ok hio).2⟩

/-- Claim C4: in the scored path every score attached to an item is in the
closed interval `[0, 1]`, both the raw cosine score of the scoring loop
and the 3-decimal rounded score of the returned items. -/
theorem claim4_score_bounds (answers : Answers) (programs : List Program)
    (top_n : Nat) (h : build_user_profile answers ≠ []) :
    (∀ x ∈ scoredPrograms (userTfidf answers programs) (build_idf programs)
        programs, 0 ≤ x.1 ∧ x.1 ≤ 1) ∧
    (∀ s : ScoredItem,
      RItem.scored s ∈ outItems (recommend answers programs top_n) →
      0 ≤ s.score ∧ s.score ≤ 1) := by
  have hne : (build_user_profile answers).isEmpty = false := by
    cases hb : build_user_profile answers with
    | nil => exact absurd hb h
    | cons a l => rfl
  refine ⟨scoredPrograms_score_bounds answers programs, ?_⟩
  intro s hs
  rw [recommend_scored_eq answers programs top_n hne] at hs
  rcases scoredPath_score hs with ⟨sp, hsp, item, hitem, hscore⟩
  cases hitem
  have hb := scoredPrograms_score_bounds answers programs sp hsp
  rw [hscore]
  exact ⟨round3_nonneg hb.1, round3_le_one hb.2⟩

/-- A visible catalog item with an empty tag list (C4 witness data): its
TF vector is empty, so its cosine score reduces to the empty-intersection
branch. -/
def pNoTags : Program :=
  ⟨some "e", some "e", some "e", some "e", some "e", some true, some []⟩

/-- The single scored pair produced for `pNoTags` (C4 witness data). -/
noncomputable def w4pair : ℝ × Program :=
  (cosine_similarity (userTfidf ansAS [pNoTags])
    (apply_tfidf (tags_to_vector []) (build_idf [pNoTags])), pNoTags)

/-- Claim C4 witness: concrete non-empty answers, and the concrete scored pair
of a one-item catalog is bounded by the theorem. -/
theorem claim4_witness :
    build_user_profile ansAS ≠ [] ∧ 0 ≤ w4pair.1 ∧ w4pair.1 ≤ 1 := by
  have hb : build_user_profile ansAS ≠ [] := by decide
  have hmem : w4pair ∈ scoredPrograms (userTfidf ansAS [pNoTags])
      (build_idf [pNoTags]) [pNoTags] := by
    simp [w4pair, scoredPrograms, pNoTags]
  have h := (claim4_score_bounds ansAS [pNoTags] 1 hb).1 w4pair hmem
  exact ⟨hb, h.1, h.2⟩

theorem round3_zero : round3 0 = 0 := by
  simp [round3]

theorem round3_one : round3 1 = 1 := by
  unfold round3
  have h2 : round (1 * 1000 : ℝ) = 1000 := by norm_num
  rw [h2]
  norm_num

/-- Catalog items each lacking exactly one of the six keys the result
projection reads (C10 data); all are visible (or lack the flag) and
share the tag "active" with `ansAS`. -/
def pMissId : Program :=
  ⟨none, some "m", some "m", some "m", some "m", some true, some ["active"]⟩

def pMissName : Program :=
  ⟨some "m", none, some "m", some "m", some "m", some true, some ["active"]⟩

def pMissDetails : Program :=
  ⟨some "m", some "m", none, some "m", some "m", some true, some ["active"]⟩

def pMissVideo : Program :=
  ⟨some "m", some "m", some "m", none, some "m", some true, some ["active"]⟩

def pMissPhoto : Program :=
  ⟨some "m", some "m", some "m", some "m", none, some true, some ["active"]⟩

def pMissVisible : Program :=
  ⟨some "m", some "m", some "m", some "m", some "m", none, some ["active"]⟩

/-- A visible item lacking only the "tags" key (C10 data). -/
def pMissTags : Program :=
  ⟨some "t", some "t", some "t", some "t", some "t", some true, none⟩

/-- Claim C10: in the scored path, `recommend` raises a `KeyError` when the
top-ranked visible item lacks any one of the six keys the result dict
reads — including "visible", which the *filter* tolerates via a default
(the item reaches the projection) but the projection then requires; a
missing "tags" key is tolerated throughout (empty-tag-list default); and
the empty-tag fallback path returns a key-deficient item unchanged. -/
theorem claim10_key_errors :
    recommend ansAS [pMissId] 1 = Except.error "id" ∧
    recommend ansAS [pMissName] 1 = Except.error "name" ∧
    recommend ansAS [pMissDetails] 1 = Except.error "details" ∧
    recommend ansAS [pMissVideo] 1 = Except.error "video_url" ∧
    recommend ansAS [pMissPhoto] 1 = Except.error "photo_url" ∧
    recommend ansAS [pMissVisible] 1 = Except.error "visible" ∧
    recommend ansAS [pMissTags] 1
      = Except.ok [RItem.scored ⟨"t", "t", "t", "t", "t", true, 0⟩] ∧
    recommend emptyAnswers [pMissId] 1 = Except.ok [RItem.raw pMissId] := by
  refine ⟨?_, ?_, ?_, ?_, ?_, ?_, ?_, rfl⟩
  · rw [recommend_scored_eq ansAS [pMissId] 1 rfl]
    simp [scoredPrograms, sortByScoreDesc, insertDesc, projectAll, projectItem,
      getKey, pMissId]
  · rw [recommend_scored_eq ansAS [pMissName] 1 rfl]
    simp [scoredPrograms, sortByScoreDesc, insertDesc, projectAll, projectItem,
      getKey, pMissName]
  · rw [recommend_scored_eq ansAS [pMissDetails] 1 rfl]
    simp [scoredPrograms, sortByScoreDesc, insertDesc, projectAll, projectItem,
      getKey, pMissDetails]
  · rw [recommend_scored_eq ansAS [pMissVideo] 1 rfl]
    simp [scoredPrograms, sortByScoreDesc, insertDesc, projectAll, projectItem,
      getKey, pMissVideo]
  · rw [recommend_scored_eq ansAS [pMissPhoto] 1 rfl]
    simp [scoredPrograms, sortByScoreDesc, insertDesc, projectAll, projectItem,
      getKey, pMissPhoto]
  · rw [recommend_scored_eq ansAS [pMissVisible] 1 rfl]
    simp [scoredPrograms, sortByScoreDesc, insertDesc, projectAll, projectItem,
      getKey, pMissVisible]
  · rw [recommend_scored_eq ansAS [pMissTags] 1 rfl]
    have hcos : cosine_similarity (userTfidf ansAS [pMissTags])
        (apply_tfidf (tags_to_vector []) (build_idf [pMissTags])) = 0 := by
      simp [cosine_similarity, commonKeys, keys, pMissTags, tags_to_vector,
        apply_tfidf]
    simp [scoredPrograms, sortByScoreDesc, insertDesc, projectAll, projectItem,
      getKey, pMissTags]
    show round3 (cosine_similarity (userTfidf ansAS [pMissTags])
      (apply_tfidf (tags_to_vector []) (build_idf [pMissTags]))) = 0
    rw [hcos, round3_zero]

theorem sumSq_pos_of_mem {v : Vec} {p : String × ℝ} (hp : p ∈ v)
    (hpos : p.2 ≠ 0) : 0 < sumSq v := by
  have hle : p.2 ^ 2 ≤ sumSq v := by
    unfold sumSq
    refine List.single_le_sum ?_ _ (List.mem_map.mpr ⟨p, hp, rfl⟩)
    intro x hx
    rcases List.mem_map.mp hx with ⟨q, _, rfl⟩
    exact sq_nonneg _
  exact lt_of_lt_of_le (pow_two_pos_of_ne_zero hpos) hle

/-- A user-side TF-IDF vector built from a tag list containing `t` has a
strictly positive entry, hence a strictly positive squared norm. -/
theorem sumSq_userVec_pos (tags : List String) (programs : List Program)
    (t : String) (ht : t ∈ tags) :
    0 < sumSq (apply_tfidf (tags_to_vector tags) (build_idf programs)) := by
  have htd : t ∈ tags.dedup := List.mem_dedup.mpr ht
  have hempty : tags.isEmpty = false := by
    cases tags with
    | nil => exact absurd ht (List.not_mem_nil t)
    | cons a l => rfl
  have hval : (0 : ℝ)
      < (tags.count t : ℝ) / (if tags.isEmpty then (1 : ℝ) else (tags.length : ℝ)) := by
    rw [hempty]
    simp only [Bool.false_eq_true, if_false]
    apply div_pos
    · exact_mod_cast List.count_pos_iff.mpr ht
    · have : 0 < tags.length := List.length_pos.mpr (List.ne_nil_of_mem ht)
      exact_mod_cast this
  have hmem1 : (t, (tags.count t : ℝ)
      / (if tags.isEmpty then (1 : ℝ) else (tags.length : ℝ))) ∈ tags_to_vector tags :=
    List.mem_map.mpr ⟨t, htd, rfl⟩
  have hmem2 : (t, ((tags.count t : ℝ)
      / (if tags.isEmpty then (1 : ℝ) else (tags.length : ℝ)))
        * getD (build_idf programs) t 1)
      ∈ apply_tfidf (tags_to_vector tags) (build_idf programs) :=
    List.mem_map.mpr ⟨_, hmem1, rfl⟩
  have hidf : (1 : ℝ) ≤ getD (build_idf programs) t 1 :=
    getD_prop build_idf_value_ge_one le_rfl t
  exact sumSq_pos_of_mem hmem2
    (ne_of_gt (mul_pos hval (lt_of_lt_of_le one_pos hidf)))

theorem cosine_similarity_of_disjoint {v1 v2 : Vec}
    (h : commonKeys v1 v2 = ∅) : cosine_similarity v1 v2 = 0 := by
  unfold cosine_similarity
  rw [if_pos h]

/-- The three-item catalog of the concrete scenario in the spec (C9 data). -/
def p9a : Program :=
  ⟨some "1", some "name1", some "details1", some "video1", some "photo1",
   some true, some ["active", "sport"]⟩

def p9b : Program :=
  ⟨some "2", some "name2", some "details2", some "video2", some "photo2",
   some true, some ["relaxed", "spa"]⟩

def p9c : Program :=
  ⟨some "3", some "name3", some "details3", some "video3", some "photo3",
   some false, some ["active", "sport"]⟩

def cat9 : List Program := [p9a, p9b, p9c]

/-- The cosine score `recommend` computes for item 1 of the scenario. -/
noncomputable def score9a : ℝ :=
  cosine_similarity (userTfidf ansAS cat9)
    (apply_tfidf (tags_to_vector (p9a.tags.getD [])) (build_idf cat9))

/-- The cosine score `recommend` computes for item 2 of the scenario. -/
noncomputable def score9b : ℝ :=
  cosine_similarity (userTfidf ansAS cat9)
    (apply_tfidf (tags_to_vector (p9b.tags.getD [])) (build_idf cat9))

theorem score9a_eq_one : score9a = 1 := by
  unfold score9a
  have huser : userTfidf ansAS cat9
      = apply_tfidf (tags_to_vector (p9a.tags.getD [])) (build_idf cat9) := rfl
  rw [← huser]
  apply cosine_similarity_self (userTfidf_keys_nodup ansAS cat9)
  show 0 < sumSq (apply_tfidf (tags_to_vector (build_user_profile ansAS)) (build_idf cat9))
  exact sumSq_userVec_pos (build_user_profile ansAS) cat9 "active" (by decide)

theorem score9b_eq_zero : score9b = 0 := by
  unfold score9b
  apply cosine_similarity_of_disjoint
  unfold commonKeys
  have k1 : keys (userTfidf ansAS cat9) = ["active", "sport"] := by
    unfold userTfidf
    rw [keys_apply_tfidf, keys_tags_to_vector]
    rfl
  have k2 : keys (apply_tfidf (tags_to_vector (p9b.tags.getD [])) (build_idf cat9))
      = ["relaxed", "spa"] := by
    rw [keys_apply_tfidf, keys_tags_to_vector]
    rfl
  rw [k1, k2]
  decide

/-- Claim C9: on the concrete scenario of the spec (catalog with two visible items
and one invisible item bearing the same tags as item 1; user tags `["active","sport"]`),
`recommend` with `topN = 2` returns exactly item 1 then item 2: item 1
scores 1.0, item 2 scores 0.0, and the invisible item 3 is excluded. -/
theorem claim9_concrete_scenario :
    recommend ansAS cat9 2 = Except.ok
      [RItem.scored ⟨"1", "name1", "details1", "video1", "photo1", true, 1⟩,
       RItem.scored ⟨"2", "name2", "details2", "video2", "photo2", true, 0⟩] := by
  rw [recommend_scored_eq ansAS cat9 2 rfl]
  have hfilter : cat9.filter (fun p => p.visible.getD true) = [p9a, p9b] := rfl
  have hsp : scoredPrograms (userTfidf ansAS cat9) (build_idf cat9) cat9
      = [(score9a, p9a), (score9b, p9b)] := by
    unfold scoredPrograms
    rw [hfilter]
    rfl
  rw [hsp, score9a_eq_one, score9b_eq_zero]
  have hsort : sortByScoreDesc [((1 : ℝ), p9a), ((0 : ℝ), p9b)]
      = [((1 : ℝ), p9a), ((0 : ℝ), p9b)] := by
    show insertDesc ((1 : ℝ), p9a) (insertDesc ((0 : ℝ), p9b) []) = _
    rw [show insertDesc ((0 : ℝ), p9b) [] = [((0 : ℝ), p9b)] from rfl]
    unfold insertDesc
    rw [if_neg (by norm_num : ¬ ((1 : ℝ), p9a).1 < ((0 : ℝ), p9b).1)]
  rw [hsort]
  show Except.ok [RItem.scored ⟨"1", "name1", "details1", "video1", "photo1",
      true, round3 1⟩,
    RItem.scored ⟨"2", "name2", "details2", "video2", "photo2", true, round3 0⟩]
    = _
  rw [round3_one, round3_zero]

end EraRec
